import Mathlib

/-!
# FluxGuard statistical core: a shallow embedding, verified

This file embeds the statistical evaluation core of the FluxGuard
repository (`io_utils.py`, `integrity_check.py`,
`fluxguard/integrity_check.py`, `fluxguard/riftlens/core.py`) into Lean 4
and proves or refutes the specification's claims about it.

Modelling conventions:
* Python floats are modelled as exact rationals (`ℚ`); the only operation
  that leaves `ℚ` is the square root inside Pearson correlation and the
  population standard deviation, which land in `ℝ`.
* A raw table cell is modelled by `FluxGuard.Value`: Python's `None`,
  `bool`, numbers, and strings.  A string cell is represented by its
  semantic class — blank after `strip()`, parseable as a float (carrying
  the parsed value), or non-parseable — which is exactly the information
  the repository's code observes about a string.
* A row (`dict[str, Any]`) is an association list; `FluxGuard.getVal`
  mirrors Python's `row.get(k)` returning `None` for an absent key.
-/

namespace FluxGuard

/-- A raw table cell value, as consumed by `io_utils._to_float`,
`io_utils.profile_table` and `riftlens.core._pairwise_numeric_vectors`:
Python `None`, `bool`, `int`/`float` (as one numeric case over `ℚ`),
and strings classified by the behaviour of `str.strip()` and `float()`:
`vStrBlank` is a string that is empty after stripping, `vStrNum q` a
non-blank string parsed by `float()` to `q`, `vStrBad` a non-blank
string `float()` rejects. -/
inductive Value where
  | vNull : Value
  | vBool (b : Bool) : Value
  | vNum (q : ℚ) : Value
  | vStrBlank : Value
  | vStrNum (q : ℚ) : Value
  | vStrBad : Value
deriving DecidableEq, Repr

/-- A row: Python `dict[str, Any]` as an association list. -/
def Row : Type := List (String × Value)

instance : DecidableEq Row := by
  unfold Row
  infer_instance

/-- Python's `row.get(k)`: the value stored at key `k`, or `None` when the
key is absent (the repository's code treats both identically). -/
def getVal (r : Row) (k : String) : Value :=
  match r.lookup k with
  | some v => v
  | none => Value.vNull

/-- `io_utils._to_float`: `None` and `bool` map to `None`; numbers map to
their float value; a string is stripped, a blank string maps to `None`,
a parseable string to its parsed float, anything else to `None`. -/
def to_float : Value → Option ℚ
  | Value.vNull => none
  | Value.vBool _ => none
  | Value.vNum q => some q
  | Value.vStrBlank => none
  | Value.vStrNum q => some q
  | Value.vStrBad => none

/-- Ordered insertion, the helper of the sort used to model Python's
`sorted(...)`. -/
def insertLe {α : Type} (le : α → α → Bool) (x : α) : List α → List α
  | [] => [x]
  | y :: ys => if le x y then x :: y :: ys else y :: insertLe le x ys

/-- Insertion sort: the model of Python's `sorted(...)` (an ascending
stable sort). -/
def sortLe {α : Type} (le : α → α → Bool) (l : List α) : List α :=
  l.foldr (insertLe le) []

/-- Sorted list of strings, as Python's `sorted(...)` over a set of keys. -/
def sortStrings (l : List String) : List String :=
  sortLe (fun a b => decide (a ≤ b)) l

/-- `sorted({k for r in rows for k in r.keys()})`: the sorted union of the
column names appearing in any row. -/
def keysOf (rows : List Row) : List String :=
  sortStrings ((rows.flatMap (fun r => r.map Prod.fst)).dedup)

/-- Sorted copy of a list of rationals, as Python's `sorted(xs)`. -/
def sortQ (l : List ℚ) : List ℚ :=
  sortLe (fun a b => decide (a ≤ b)) l

/-- `io_utils._median`: 0 on the empty list; the middle element of the
sorted copy for odd length; the average of the two middles for even. -/
def median (xs : List ℚ) : ℚ :=
  match xs with
  | [] => 0
  | _ :: _ =>
    let ys := sortQ xs
    let n := ys.length
    let mid := n / 2
    if n % 2 = 1 then ys.getD mid 0
    else (ys.getD (mid - 1) 0 + ys.getD mid 0) / 2

/-- `io_utils._mad`: median of absolute deviations from the median. -/
def mad (xs : List ℚ) : ℚ :=
  match xs with
  | [] => 0
  | _ :: _ => median (xs.map (fun x => |x - median xs|))

/-- `io_utils._quantile_sorted`: linear interpolation between the order
statistics of an (assumed sorted) list at position `(n-1)*q`, with the
endpoints returned directly for `q ≤ 0` and `q ≥ 1`. -/
def quantile_sorted (sorted_xs : List ℚ) (q : ℚ) : ℚ :=
  match sorted_xs with
  | [] => 0
  | _ :: _ =>
    if q ≤ 0 then sorted_xs.getD 0 0
    else if 1 ≤ q then sorted_xs.getD (sorted_xs.length - 1) 0
    else
      let n := sorted_xs.length
      let pos : ℚ := (n - 1 : ℕ) * q
      let lo := ⌊pos⌋
      let hi := ⌈pos⌉
      if lo = hi then sorted_xs.getD lo.toNat 0
      else
        let w := pos - lo
        sorted_xs.getD lo.toNat 0 * (1 - w) + sorted_xs.getD hi.toNat 0 * w

/-- Python's `math.isclose(a, b)` with its default tolerances
(`rel_tol = 1e-9`, `abs_tol = 0.0`):
`|a - b| ≤ max(rel_tol * max(|a|, |b|), abs_tol)`. -/
def isclose (a b : ℚ) : Bool :=
  decide (|a - b| ≤ max (1 / 1000000000 * max |a| |b|) 0)

/-- `integrity_check.safe_div` (identical in both front-ends): returns 0
when `den == 0.0 or math.isclose(den, 0.0)`, else the quotient. -/
def safe_div (num den : ℚ) : ℚ :=
  if den = 0 ∨ isclose den 0 then 0 else num / den

/-- The row-accumulation loop of `io_utils.read_table` (CSV/TSV branch):
each parsed row is appended, and the loop breaks once `i + 1 >= max_rows`
(no truncation when `max_rows is None`).  Note that for `max_rows = 0`
the loop still appends the first row before breaking. -/
def read_table_rows : List Row → Option ℕ → List Row
  | [], _ => []
  | r :: rest, none => r :: read_table_rows rest none
  | r :: rest, some m => if m ≤ 1 then [r] else r :: read_table_rows rest (some (m - 1))

/-- The default of `read_table`'s `max_rows` keyword argument: `None`. -/
def read_table_default_max_rows : Option ℕ := none

/-- The default of the `max_rows` argument of
`integrity_check._numeric_means_and_stds`: `200_000`. -/
def means_and_stds_default_max_rows : ℕ := 200000

/-- `io_utils.extract_numeric_columns`: for every column name appearing in
any row (in sorted order), the index-aligned list of `_to_float` parse
results (`float` when convertible, otherwise `None`). -/
def extract_numeric_columns (rows : List Row) : List (String × List (Option ℚ)) :=
  (keysOf rows).map (fun k => (k, rows.map (fun r => to_float (getVal r k))))

/-- The classification each cell receives in the per-column loop of
`io_utils.profile_table`: `None` or a blank string is missing; otherwise
the cell is nonempty, and is numeric exactly when `_to_float` succeeds. -/
inductive Cell where
  | missing : Cell
  | nonNumeric : Cell
  | numeric (q : ℚ) : Cell
deriving DecidableEq, Repr

/-- One iteration of `profile_table`'s per-column loop, in source order:
`v is None` → missing; a blank string → missing; otherwise nonempty,
numeric iff `_to_float` returns a value. -/
def classifyCell : Value → Cell
  | Value.vNull => Cell.missing
  | Value.vStrBlank => Cell.missing
  | v =>
    match to_float v with
    | none => Cell.nonNumeric
    | some q => Cell.numeric q

/-- Decision `Bool` for a missing cell. -/
def Cell.isMissing : Cell → Bool
  | Cell.missing => true
  | _ => false

/-- The numeric payload of a cell, when present. -/
def Cell.numValue : Cell → Option ℚ
  | Cell.numeric q => some q
  | _ => none

/-- The cell classifications of column `k` across the row sequence. -/
def columnCells (rows : List Row) (k : String) : List Cell :=
  rows.map (fun r => classifyCell (getVal r k))

/-- `statistics.pstdev` guarded by `io_utils._safe_stdev`: 0 for fewer
than two values, else the square root of the population variance. -/
noncomputable def safe_stdev (xs : List ℚ) : ℝ :=
  if xs.length < 2 then 0
  else
    let n : ℚ := xs.length
    let mu : ℚ := xs.sum / n
    Real.sqrt (((xs.map (fun x => (x - mu) ^ 2)).sum / n : ℚ) : ℝ)

/-- The summary statistics block `profile_table` adds to a column entry
when at least one numeric value exists (source lines 189–220). -/
structure ColStats where
  min : ℚ
  max : ℚ
  mean : ℚ
  std : ℝ
  median : ℚ
  mad : ℚ
  p01 : ℚ
  p05 : ℚ
  p50 : ℚ
  p95 : ℚ
  p99 : ℚ
  outliers_robust : ℕ

/-- Construction of the statistics block from the numeric values of one
column, following `profile_table`: statistics over the sorted copy,
robust outliers via the modified z-score `0.6745*(x-med)/mad` with
absolute value at least `3.5`, counted only when `mad > 0`. -/
noncomputable def colStats (xs : List ℚ) : ColStats :=
  let xs_sorted := sortQ xs
  let med := median xs_sorted
  let madv := mad xs_sorted
  let outliers :=
    if 0 < madv then
      xs.countP (fun x => decide ((7 : ℚ) / 2 ≤ |6745 / 10000 * (x - med) / madv|))
    else 0
  { min := xs_sorted.getD 0 0
    max := xs_sorted.getD (xs_sorted.length - 1) 0
    mean := xs.sum / xs.length
    std := safe_stdev xs
    median := med
    mad := madv
    p01 := quantile_sorted xs_sorted (1 / 100)
    p05 := quantile_sorted xs_sorted (5 / 100)
    p50 := quantile_sorted xs_sorted (50 / 100)
    p95 := quantile_sorted xs_sorted (95 / 100)
    p99 := quantile_sorted xs_sorted (99 / 100)
    outliers_robust := outliers }

/-- One column entry of the profile: the four counters always present,
plus the statistics block when the column has at least one numeric
value. -/
structure ColEntry where
  missing : ℕ
  nonempty : ℕ
  non_numeric : ℕ
  numeric_count : ℕ
  stats : Option ColStats

/-- The whole profile: total row count plus one entry per column. -/
structure Profile where
  rows : ℕ
  columns : List (String × ColEntry)

/-- `io_utils.profile_table`: for each column name (sorted), count
missing (null or blank), nonempty, non-numeric among nonempty, and the
numeric values in row order; attach statistics when any numeric value
exists. -/
noncomputable def profile_table (rows : List Row) : Profile :=
  { rows := rows.length
    columns :=
      (keysOf rows).map (fun k =>
        let cells := columnCells rows k
        let numeric := cells.filterMap Cell.numValue
        (k,
          { missing := cells.countP Cell.isMissing
            nonempty := cells.countP (fun c => ! c.isMissing)
            non_numeric := cells.countP (fun c => c = Cell.nonNumeric)
            numeric_count := numeric.length
            stats := if numeric = [] then none else some (colStats numeric) })) }

/-- The merge sweep of `io_utils.ks_statistic`: `xs`, `ys` are the not yet
consumed suffixes of the two sorted samples, `i`, `j` the number of
consumed elements, `cx`, `cy` the stepped empirical CDF values and `d`
the running maximum.  Each iteration advances the `x` pointer when
`xv <= yv`, the `y` pointer when `yv <= xv` (both on a tie), then updates
`d` with the new absolute CDF difference. -/
def ksLoop (nx ny : ℕ) (xs ys : List ℚ) (i j : ℕ) (cx cy d : ℚ) : ℚ :=
  match xs, ys with
  | xv :: xrest, yv :: yrest =>
    if xv ≤ yv then
      if yv ≤ xv then
        ksLoop nx ny xrest yrest (i + 1) (j + 1) ((i + 1 : ℚ) / nx) ((j + 1 : ℚ) / ny)
          (max d |(i + 1 : ℚ) / nx - (j + 1 : ℚ) / ny|)
      else
        ksLoop nx ny xrest (yv :: yrest) (i + 1) j ((i + 1 : ℚ) / nx) cy
          (max d |(i + 1 : ℚ) / nx - cy|)
    else
      ksLoop nx ny (xv :: xrest) yrest i (j + 1) cx ((j + 1 : ℚ) / ny)
        (max d |cx - (j + 1 : ℚ) / ny|)
  | _, _ => d
termination_by xs.length + ys.length
decreasing_by all_goals simp_arith

/-- `io_utils.ks_statistic`: 0 when either sample is empty, else the
merge sweep over the two sorted samples starting from empty CDFs. -/
def ks_statistic (x y : List ℚ) : ℚ :=
  match x, y with
  | [], _ => 0
  | _, [] => 0
  | _ :: _, _ :: _ => ksLoop x.length y.length (sortQ x) (sortQ y) 0 0 0 0 0

/-- Empirical CDF of a sample at a point: the fraction of sample values
not exceeding the point. -/
def ecdf (s : List ℚ) (t : ℚ) : ℚ :=
  (s.countP (fun v => decide (v ≤ t)) : ℚ) / s.length

/-- Modelled from the spec: the classical two-sample Kolmogorov–Smirnov
statistic, "the two-sample supremum of the absolute empirical-CDF
difference".  For step functions the supremum is attained at a sample
point, so it is the maximum over the pooled sample. -/
def ks_spec (x y : List ℚ) : ℚ :=
  ((x ++ y).map (fun t => |ecdf x t - ecdf y t|)).foldr max 0

/-- `riftlens.core.pearson_corr`: `n = min(len(x), len(y))`, 0 when
`n < 2`; the "means" divide the full-list sums by `n`; the variance terms
`vx`, `vy` range over the full lists; 0 when either is `≤ 0`; the
covariance ranges over the index prefix of length `n`; the result is
`cov / sqrt(vx * vy)`. -/
noncomputable def pearson_corr (x y : List ℚ) : ℝ :=
  let n := min x.length y.length
  if n < 2 then 0
  else
    let mx : ℚ := x.sum / n
    let my : ℚ := y.sum / n
    let vx : ℚ := (x.map (fun a => (a - mx) ^ 2)).sum
    let vy : ℚ := (y.map (fun b => (b - my) ^ 2)).sum
    if vx ≤ 0 ∨ vy ≤ 0 then 0
    else
      let cov : ℚ :=
        ((List.range n).map (fun i => (x.getD i 0 - mx) * (y.getD i 0 - my))).sum
      (cov : ℝ) / Real.sqrt ((vx : ℝ) * (vy : ℝ))

/-- Modelled from the spec: "Pearson correlation computed over the
index-aligned prefix of length `min(len(a), len(b))`", with the spec's
conventions: 0 when fewer than 2 paired values or when either prefix has
zero variance.  Means, variances and covariance all range over the two
prefixes only. -/
noncomputable def pearson_spec (x y : List ℚ) : ℝ :=
  let n := min x.length y.length
  let xs := x.take n
  let ys := y.take n
  if n < 2 then 0
  else
    let mx : ℚ := xs.sum / n
    let my : ℚ := ys.sum / n
    let vx : ℚ := (xs.map (fun a => (a - mx) ^ 2)).sum
    let vy : ℚ := (ys.map (fun b => (b - my) ^ 2)).sum
    if vx = 0 ∨ vy = 0 then 0
    else
      let cov : ℚ := ((xs.zip ys).map (fun p => (p.1 - mx) * (p.2 - my))).sum
      (cov : ℝ) / (Real.sqrt (vx : ℝ) * Real.sqrt (vy : ℝ))

/-- Python's `round(x, 12)` used for edge serialization: round half to
even at the twelfth decimal digit. -/
noncomputable def pyRound12 (x : ℝ) : ℝ :=
  let y := x * 10 ^ 12
  let n : ℤ :=
    if Int.fract y = 1 / 2 then (if Even ⌊y⌋ then ⌊y⌋ else ⌊y⌋ + 1) else round y
  (n : ℝ) / 10 ^ 12

/-- One emitted correlation edge: `{"a": ..., "b": ..., "corr": ...}`. -/
structure Edge where
  a : String
  b : String
  corr : ℝ

/-- The coherence graph report:
`{"nodes": keys, "edges": edges, "threshold": threshold}`. -/
structure Graph where
  nodes : List String
  edges : List Edge
  threshold : ℚ

/-- The unordered pairs `(keys[i], keys[j])`, `i < j`, in list order, as
produced by the two nested index loops of `build_coherence_graph`. -/
def pairsOf : List String → List (String × String)
  | [] => []
  | k :: rest => rest.map (fun k2 => (k, k2)) ++ pairsOf rest

/-- `riftlens.core.build_coherence_graph`: over the sorted column names,
for every pair `(a, b)` with `a` before `b`, compute the correlation and
emit an edge exactly when `|corr| >= threshold`, with the value rounded
(twice, as in the source) to 12 decimal digits. -/
noncomputable def build_coherence_graph (data : List (String × List ℚ)) (threshold : ℚ) :
    Graph :=
  let keys := sortStrings (data.map Prod.fst)
  let col := fun k => (data.lookup k).getD []
  let edges := (pairsOf keys).filterMap (fun p =>
    let raw := pearson_corr (col p.1) (col p.2)
    if (threshold : ℝ) ≤ |raw| then
      some { a := p.1, b := p.2, corr := pyRound12 (pyRound12 raw) }
    else none)
  { nodes := keys, edges := edges, threshold := threshold }

/-- The per-cell parse of `riftlens.core._pairwise_numeric_vectors`, in
source order: `None` skipped, `bool` skipped, numbers kept, strings
stripped then kept only when `float()` succeeds on a non-blank string. -/
def riftlensParse : Value → Option ℚ
  | Value.vNull => none
  | Value.vBool _ => none
  | Value.vNum q => some q
  | Value.vStrBlank => none
  | Value.vStrNum q => some q
  | Value.vStrBad => none

/-- `riftlens.core._pairwise_numeric_vectors`: per sorted column name,
the row-order list of parsed numeric values; keep only columns with at
least 2 values; raise `ValueError` when none remains. -/
def pairwise_numeric_vectors (rows : List Row) :
    Except String (List (String × List ℚ)) :=
  let keys := keysOf rows
  let tmp := keys.map (fun k => (k, rows.filterMap (fun r => riftlensParse (getVal r k))))
  let numeric := tmp.filter (fun kv => 2 ≤ kv.2.length)
  if numeric = [] then Except.error "Aucune colonne numerique exploitable"
  else Except.ok numeric

/-- `fluxguard/integrity_check.compute_inco` (and the inlined sum of the
top-level front-end): the weighted sum
`w_null*v_null + w_drift*v_drift + w_void*v_void`. -/
def compute_inco (v_null v_drift v_void : ℚ) (weights : ℚ × ℚ × ℚ) : ℚ :=
  weights.1 * v_null + weights.2.1 * v_drift + weights.2.2 * v_void

/-- The decision field of both front-ends' payload:
`"BLOCK" if inco > threshold else "OK"`. -/
def decision (inco threshold : ℚ) : String :=
  if threshold < inco then "BLOCK" else "OK"

/-! ## General lemmas about the embedded operations -/

/-- The merge sweep returns the accumulator once the left sample is
exhausted. -/
lemma ksLoop_nil_left (nx ny : ℕ) (ys : List ℚ) (i j : ℕ) (cx cy d : ℚ) :
    ksLoop nx ny [] ys i j cx cy d = d := by
  rw [ksLoop.eq_def]

/-- The merge sweep returns the accumulator once the right sample is
exhausted. -/
lemma ksLoop_nil_right (nx ny : ℕ) (xs : List ℚ) (i j : ℕ) (cx cy d : ℚ) :
    ksLoop nx ny xs [] i j cx cy d = d := by
  cases xs with
  | nil => rw [ksLoop.eq_def]
  | cons a l => rw [ksLoop.eq_def]

/-- Without a row cap, `read_table` keeps every row. -/
lemma read_table_rows_none (rows : List Row) :
    read_table_rows rows none = rows := by
  induction rows with
  | nil => rfl
  | cons r rest ih => simpa [read_table_rows] using ih

/-- With a positive row cap `m`, `read_table` returns exactly the first
`m` rows (all rows when fewer). -/
lemma read_table_rows_some (rows : List Row) :
    ∀ m : ℕ, 1 ≤ m → read_table_rows rows (some m) = rows.take m := by
  induction rows with
  | nil => intro m _; simp [read_table_rows]
  | cons r rest ih =>
    intro m hm
    obtain ⟨k, rfl⟩ : ∃ k, m = k + 1 := ⟨m - 1, by omega⟩
    by_cases hk : k = 0
    · subst hk; simp [read_table_rows]
    · have h1 : ¬ (k + 1 ≤ 1) := by omega
      simp only [read_table_rows, if_neg h1, Nat.add_sub_cancel, List.take_succ_cons]
      exact congrArg (r :: ·) (ih k (by omega))

/-- `math.isclose(den, 0.0)` with the default tolerances (relative
tolerance only, zero absolute tolerance) holds exactly for `den = 0`. -/
lemma isclose_zero_iff (d : ℚ) : isclose d 0 = true ↔ d = 0 := by
  simp only [isclose, decide_eq_true_eq, sub_zero, abs_zero]
  constructor
  · intro h
    by_contra hd
    have h0 : 0 < |d| := abs_pos.mpr hd
    have hmax1 : max |d| (0 : ℚ) = |d| := max_eq_left (abs_nonneg d)
    have hmax2 : max (1 / 1000000000 * |d|) (0 : ℚ) = 1 / 1000000000 * |d| :=
      max_eq_left (by positivity)
    rw [hmax1, hmax2] at h
    nlinarith
  · intro h; simp [h]

/-- `safe_div` in closed form: 0 exactly at a zero denominator, the exact
quotient otherwise. -/
lemma safe_div_eq (num den : ℚ) :
    safe_div num den = if den = 0 then 0 else num / den := by
  unfold safe_div
  by_cases h : den = 0
  · simp [h]
  · have : ¬ (den = 0 ∨ isclose den 0 = true) := by
      rw [isclose_zero_iff]
      tauto
    simp only [if_neg this, if_neg h]

/-- Membership is preserved by ordered insertion. -/
lemma mem_insertLe {α : Type} (le : α → α → Bool) (x a : α) :
    ∀ l : List α, a ∈ insertLe le x l ↔ a = x ∨ a ∈ l := by
  intro l
  induction l with
  | nil => simp [insertLe]
  | cons y ys ih =>
    simp only [insertLe]
    by_cases h : le x y
    · simp [h]
    · simp only [if_neg h, List.mem_cons, ih]
      tauto

/-- Membership is preserved by the sort. -/
lemma mem_sortLe {α : Type} (le : α → α → Bool) (a : α) :
    ∀ l : List α, a ∈ sortLe le l ↔ a ∈ l := by
  intro l
  induction l with
  | nil => simp [sortLe]
  | cons x xs ih =>
    show a ∈ insertLe le x (sortLe le xs) ↔ _
    rw [mem_insertLe, ih]
    simp

/-- A name is a key of the extracted column set exactly when it appears
in some row. -/
lemma mem_keysOf (rows : List Row) (k : String) :
    k ∈ keysOf rows ↔ ∃ r ∈ rows, k ∈ r.map Prod.fst := by
  unfold keysOf sortStrings
  rw [mem_sortLe]
  simp [List.mem_dedup, List.mem_flatMap]

/-- Looking up a key in an association list built by tabulating a
function over a key list returns the function's value. -/
lemma lookup_map_self {β : Type} (f : String → β) :
    ∀ (keys : List String) (k : String), k ∈ keys →
      (keys.map (fun k => (k, f k))).lookup k = some (f k) := by
  intro keys
  induction keys with
  | nil => simp
  | cons a l ih =>
    intro k hk
    by_cases h : k = a
    · subst h
      simp [List.lookup]
    · rcases List.mem_cons.mp hk with h' | h'
      · exact absurd h' h
      · have hba : (k == a) = false := beq_eq_false_iff_ne.mpr h
        simp only [List.map_cons, List.lookup, hba]
        exact ih k h'

/-- The three cell classes partition the rows of one column: missing and
nonempty cells add up to the total, and non-numeric plus numeric cells
add up to the nonempty ones. -/
lemma cell_counts (cells : List Cell) :
    cells.countP Cell.isMissing + cells.countP (fun c => ! c.isMissing) = cells.length ∧
      cells.countP (fun c => c = Cell.nonNumeric) + (cells.filterMap Cell.numValue).length
        = cells.countP (fun c => ! c.isMissing) := by
  induction cells with
  | nil => simp
  | cons c cs ih =>
    obtain ⟨ih1, ih2⟩ := ih
    cases c <;>
      simp [List.countP_cons, List.filterMap_cons, Cell.isMissing, Cell.numValue]
        at ih1 ih2 ⊢ <;>
      omega

/-! ## Claim theorems -/

/-- C2, counterexample: the profiler's percentile helper on the sorted
input `[1,2,3,4]` does not clamp `p01` to the minimum 1 nor `p99` to the
maximum 4, refuting the claimed values. -/
theorem quantile_p01_p99_1234_counterexample :
    quantile_sorted [1, 2, 3, 4] (1 / 100) ≠ 1 ∧
      quantile_sorted [1, 2, 3, 4] (99 / 100) ≠ 4 := by
  have hc1 : ⌈(3 : ℚ) / 100⌉ = 1 := by rw [Int.ceil_eq_iff]; norm_num
  have hc2 : ⌈(297 : ℚ) / 100⌉ = 3 := by rw [Int.ceil_eq_iff]; norm_num
  constructor
  · norm_num [quantile_sorted, hc1, (show Int.toNat 1 = 1 by decide)]
  · norm_num [quantile_sorted, hc2, (show Int.toNat 2 = 2 by decide),
      (show Int.toNat 3 = 3 by decide)]

/-- C2, amended: for the input `[1,2,3,4]` the median and `p50` both
equal `5/2`, while linear interpolation at position `(n-1)*q` gives
`p01 = 103/100` and `p99 = 397/100` (the endpoints are returned only for
`q ≤ 0` or `q ≥ 1`, not for small positive quantiles). -/
theorem median_quantiles_on_1234 :
    median [1, 2, 3, 4] = 5 / 2 ∧
      quantile_sorted [1, 2, 3, 4] (50 / 100) = 5 / 2 ∧
      quantile_sorted [1, 2, 3, 4] (1 / 100) = 103 / 100 ∧
      quantile_sorted [1, 2, 3, 4] (99 / 100) = 397 / 100 ∧
      quantile_sorted [1, 2, 3, 4] 0 = 1 ∧
      quantile_sorted [1, 2, 3, 4] 1 = 4 := by
  have hc1 : ⌈(3 : ℚ) / 100⌉ = 1 := by rw [Int.ceil_eq_iff]; norm_num
  have hc2 : ⌈(297 : ℚ) / 100⌉ = 3 := by rw [Int.ceil_eq_iff]; norm_num
  have hc3 : ⌈(3 : ℚ) / 2⌉ = 2 := by rw [Int.ceil_eq_iff]; norm_num
  refine ⟨?_, ?_, ?_, ?_, ?_, ?_⟩
  · norm_num [median, sortQ, sortLe, insertLe]
  · norm_num [quantile_sorted, hc3, (show Int.toNat 1 = 1 by decide),
      (show Int.toNat 2 = 2 by decide)]
  · norm_num [quantile_sorted, hc1, (show Int.toNat 1 = 1 by decide)]
  · norm_num [quantile_sorted, hc2, (show Int.toNat 2 = 2 by decide),
      (show Int.toNat 3 = 3 by decide)]
  · norm_num [quantile_sorted]
  · norm_num [quantile_sorted]

/-- C3: at the denominator `10⁻¹⁷`, which is nonzero but within machine
epsilon (`2⁻⁵²`) of zero, `safe_div` returns the exact quotient `10¹⁷`
rather than the claimed 0: the `isclose` guard with zero absolute
tolerance never fires for a nonzero denominator. -/
theorem safe_div_near_zero_eval :
    safe_div 1 (1 / 10 ^ 17) = 10 ^ 17 ∧
      ((1 : ℚ) / 10 ^ 17) ≠ 0 ∧
      |(1 : ℚ) / 10 ^ 17| < 1 / 2 ^ 52 ∧
      ((10 : ℚ) ^ 17) ≠ 0 := by
  rw [safe_div_eq]
  norm_num [abs_of_nonneg]

/-- C9: the decision is `"BLOCK"` exactly when the score strictly exceeds
the threshold; a score equal to the threshold yields `"OK"`, and any
positive excess yields `"BLOCK"`. -/
theorem decision_strict_threshold (s t : ℚ) :
    (decision s t = "BLOCK" ↔ t < s) ∧
      decision t t = "OK" ∧
      ∀ ε : ℚ, 0 < ε → decision (t + ε) t = "BLOCK" := by
  refine ⟨⟨fun h => ?_, fun h => if_pos h⟩, ?_, fun ε hε => ?_⟩
  · by_contra hns
    have hok : decision s t = "OK" := if_neg hns
    rw [h] at hok
    exact absurd hok (by decide)
  · simp [decision]
  · exact if_pos (by linarith)

/-- Witness for C9 at the spec's end-to-end example: score 0.38 against
threshold 0.25 blocks, the exact threshold is OK, and excess 0.01
blocks. -/
theorem decision_strict_threshold_witness :
    (decision (38 / 100) (25 / 100) = "BLOCK" ↔ (25 : ℚ) / 100 < 38 / 100) ∧
      decision (25 / 100) (25 / 100) = "OK" ∧
      decision (25 / 100 + 1 / 100) (25 / 100) = "BLOCK" := by
  obtain ⟨h1, h2, h3⟩ := decision_strict_threshold (38 / 100) (25 / 100)
  exact ⟨h1, h2, h3 (1 / 100) (by norm_num)⟩

/-- C7: the incoherence score is the weighted sum
`w_null*v_null + w_drift*v_drift + w_void*v_void`, and with non-negative
weights it is monotone in each violation component separately. -/
theorem compute_inco_weighted_sum_monotone (vn vd vv : ℚ) (w : ℚ × ℚ × ℚ) :
    compute_inco vn vd vv w = w.1 * vn + w.2.1 * vd + w.2.2 * vv ∧
      (0 ≤ w.1 → 0 ≤ w.2.1 → 0 ≤ w.2.2 →
        (∀ vn', vn ≤ vn' → compute_inco vn vd vv w ≤ compute_inco vn' vd vv w) ∧
        (∀ vd', vd ≤ vd' → compute_inco vn vd vv w ≤ compute_inco vn vd' vv w) ∧
        (∀ vv', vv ≤ vv' → compute_inco vn vd vv w ≤ compute_inco vn vd vv' w)) := by
  refine ⟨rfl, fun h1 h2 h3 => ⟨?_, ?_, ?_⟩⟩ <;>
    intro z hz <;> unfold compute_inco <;> nlinarith

/-- Witness for C7 at the spec's end-to-end numbers: the score is 0.38,
and raising the null violation from 0.4 to 0.7 does not decrease it. -/
theorem compute_inco_weighted_sum_monotone_witness :
    compute_inco (4 / 10) (5 / 10) (2 / 10) (3 / 10, 4 / 10, 3 / 10)
        = (3 : ℚ) / 10 * (4 / 10) + 4 / 10 * (5 / 10) + 3 / 10 * (2 / 10) ∧
      compute_inco (4 / 10) (5 / 10) (2 / 10) (3 / 10, 4 / 10, 3 / 10)
        ≤ compute_inco (7 / 10) (5 / 10) (2 / 10) (3 / 10, 4 / 10, 3 / 10) := by
  obtain ⟨heq, hmono⟩ :=
    compute_inco_weighted_sum_monotone (4 / 10) (5 / 10) (2 / 10) (3 / 10, 4 / 10, 3 / 10)
  exact ⟨heq, (hmono (by norm_num) (by norm_num) (by norm_num)).1 (7 / 10) (by norm_num)⟩

/-- C4, counterexample: `read_table`'s row cap defaults to `None`, not
200,000 — with the default, an input of 200,001 rows is returned whole,
not truncated to the first `min(200001, 200000)` rows. -/
theorem read_table_default_cap_counterexample :
    (read_table_rows (List.replicate 200001 ([] : Row)) read_table_default_max_rows).length
        = 200001 ∧
      (200001 : ℕ) ≠ min 200001 200000 := by
  unfold read_table_default_max_rows
  rw [read_table_rows_none]
  exact ⟨List.length_replicate 200001 _, by omega⟩

/-- C4, amended: the row cap is configurable but defaults to no cap; when
a positive cap `m` is supplied, the result is exactly the first
`min(total, m)` rows, and inputs longer than the cap are not an error. -/
theorem read_table_cap_truncates (rows : List Row) (m : ℕ) (h : 1 ≤ m) :
    read_table_rows rows (some m) = rows.take m ∧
      (read_table_rows rows (some m)).length = min m rows.length ∧
      read_table_rows rows read_table_default_max_rows = rows := by
  refine ⟨read_table_rows_some rows m h, ?_, read_table_rows_none rows⟩
  rw [read_table_rows_some rows m h, List.length_take]

/-- Witness for C4: with cap 2, a 3-row table is cut to its first 2
rows. -/
theorem read_table_cap_truncates_witness :
    1 ≤ 2 ∧
      (read_table_rows [[("a", Value.vNum 1)], [("a", Value.vNum 2)], [("a", Value.vNum 3)]]
          (some 2)
        = [[("a", Value.vNum 1)], [("a", Value.vNum 2)]] ∧
      (read_table_rows [[("a", Value.vNum 1)], [("a", Value.vNum 2)], [("a", Value.vNum 3)]]
            (some 2)).length = min 2 3 ∧
      read_table_rows [[("a", Value.vNum 1)], [("a", Value.vNum 2)], [("a", Value.vNum 3)]]
          read_table_default_max_rows
        = [[("a", Value.vNum 1)], [("a", Value.vNum 2)], [("a", Value.vNum 3)]]) :=
  ⟨by norm_num,
    read_table_cap_truncates [[("a", Value.vNum 1)], [("a", Value.vNum 2)], [("a", Value.vNum 3)]]
      2 (by norm_num)⟩

/-- C6: on the tied samples `x = [1,1,1]`, `y = [1]` the merge sweep
returns `2/3`, while the two-sample supremum of the absolute
empirical-CDF difference (the KS statistic the docstring promises, and
what `scipy.stats.ks_2samp` computes) is 0: advancing only one element
per side on a tie lets the two stepped CDFs be compared mid-tie. -/
theorem ks_statistic_tied_duplicates_eval :
    ks_statistic [1, 1, 1] [1] = 2 / 3 ∧
      ks_spec [1, 1, 1] [1] = 0 ∧
      (2 : ℚ) / 3 ≠ 0 := by
  refine ⟨?_, ?_, by norm_num⟩
  · norm_num [ks_statistic, ksLoop, sortQ, sortLe, insertLe, ksLoop_nil_right,
      ksLoop_nil_left, abs_of_nonneg, abs_of_nonpos]
  · norm_num [ks_spec, ecdf]

/-- C5, counterexample: for the single row `{"a": "x"}` (a non-numeric
string), the extractor's column `"a"` is `[None]` — an index-aligned
placeholder list — not the empty subsequence `[]` of successfully-parsed
floats the claim promises. -/
theorem extract_numeric_columns_placeholder_counterexample :
    (extract_numeric_columns [[("a", Value.vStrBad)]]).lookup "a" = some [none] ∧
      (([[("a", Value.vStrBad)]] : List Row).filterMap
          (fun r => to_float (getVal r "a"))) = [] ∧
      ([none] : List (Option ℚ)) ≠ List.map some [] := by
  refine ⟨?_, by decide, by decide⟩
  decide

/-- C5, amended: the extractor is total (never raises) and maps every
column name appearing in any row to the index-aligned list of optional
parse results — one entry per row, `None` for null, boolean, blank or
unparsable cells (booleans are never coerced) — whose `None`-free
subsequence is exactly the successfully-parsed float subsequence; an
entirely non-numeric column yields a list with no numeric entries, not
an empty list. -/
theorem extract_numeric_columns_aligned (rows : List Row) (k : String)
    (h : ∃ r ∈ rows, k ∈ r.map Prod.fst) :
    ∃ l, (extract_numeric_columns rows).lookup k = some l ∧
      l = rows.map (fun r => to_float (getVal r k)) ∧
      l.filterMap id = rows.filterMap (fun r => to_float (getVal r k)) ∧
      l.length = rows.length := by
  have hk : k ∈ keysOf rows := (mem_keysOf rows k).mpr h
  refine ⟨rows.map (fun r => to_float (getVal r k)),
    lookup_map_self (fun k => rows.map (fun r => to_float (getVal r k))) (keysOf rows) k hk,
    rfl, ?_, by simp⟩
  rw [List.filterMap_map]
  rfl

/-- Witness for C5 on the rows `[{"a": 1}, {"a": true}]`: column `"a"`
is present and aligned. -/
theorem extract_numeric_columns_aligned_witness :
    (∃ r ∈ ([[("a", Value.vNum 1)], [("a", Value.vBool true)]] : List Row),
        "a" ∈ r.map Prod.fst) ∧
      ∃ l, (extract_numeric_columns
              [[("a", Value.vNum 1)], [("a", Value.vBool true)]]).lookup "a" = some l ∧
        l = ([[("a", Value.vNum 1)], [("a", Value.vBool true)]] : List Row).map
              (fun r => to_float (getVal r "a")) ∧
        l.filterMap id = ([[("a", Value.vNum 1)], [("a", Value.vBool true)]] : List Row).filterMap
              (fun r => to_float (getVal r "a")) ∧
        l.length = ([[("a", Value.vNum 1)], [("a", Value.vBool true)]] : List Row).length :=
  ⟨by decide,
    extract_numeric_columns_aligned [[("a", Value.vNum 1)], [("a", Value.vBool true)]] "a"
      (by decide)⟩

/-- C10: the profiler's output satisfies the counting invariant: the
top-level row count is the number of input rows, and every column entry
satisfies `missing + nonempty = total rows` and
`non_numeric + numeric_count = nonempty`. -/
theorem profile_table_counting_invariant (rows : List Row) :
    (profile_table rows).rows = rows.length ∧
      ∀ k, k ∈ keysOf rows →
        ∃ e, ((profile_table rows).columns.lookup k) = some e ∧
          e.missing + e.nonempty = rows.length ∧
          e.non_numeric + e.numeric_count = e.nonempty := by
  refine ⟨rfl, fun k hk => ?_⟩
  refine ⟨_, lookup_map_self (fun k =>
    let cells := columnCells rows k
    let numeric := cells.filterMap Cell.numValue
    ({ missing := cells.countP Cell.isMissing
       nonempty := cells.countP (fun c => ! c.isMissing)
       non_numeric := cells.countP (fun c => c = Cell.nonNumeric)
       numeric_count := numeric.length
       stats := if numeric = [] then none else some (colStats numeric) } : ColEntry))
    (keysOf rows) k hk, ?_, ?_⟩
  · have := (cell_counts (columnCells rows k)).1
    simpa [columnCells] using this
  · exact (cell_counts (columnCells rows k)).2

/-- Witness for C10 on the rows `[{"a": 1}, {"a": ""}, {"a": "x"}]`. -/
theorem profile_table_counting_invariant_witness :
    ("a" ∈ keysOf [[("a", Value.vNum 1)], [("a", Value.vStrBlank)], [("a", Value.vStrBad)]]) ∧
      ∃ e, ((profile_table
              [[("a", Value.vNum 1)], [("a", Value.vStrBlank)],
                [("a", Value.vStrBad)]]).columns.lookup "a") = some e ∧
        e.missing + e.nonempty
            = ([[("a", Value.vNum 1)], [("a", Value.vStrBlank)],
                [("a", Value.vStrBad)]] : List Row).length ∧
        e.non_numeric + e.numeric_count = e.nonempty :=
  ⟨by decide,
    (profile_table_counting_invariant
        [[("a", Value.vNum 1)], [("a", Value.vStrBlank)], [("a", Value.vStrBad)]]).2
      "a" (by decide)⟩

/-- The parsed numeric values of one column, as accumulated by
`_pairwise_numeric_vectors`' row loop. -/
def riftlensColumn (rows : List Row) (k : String) : List ℚ :=
  rows.filterMap (fun r => riftlensParse (getVal r k))

/-- The column map of `_pairwise_numeric_vectors` after the `>= 2
values` filter. -/
def riftlensNumeric (rows : List Row) : List (String × List ℚ) :=
  ((keysOf rows).map (fun k => (k, riftlensColumn rows k))).filter
    (fun kv => 2 ≤ kv.2.length)

/-- `_pairwise_numeric_vectors` in terms of its filtered column map. -/
lemma pairwise_numeric_vectors_eq (rows : List Row) :
    pairwise_numeric_vectors rows =
      if riftlensNumeric rows = [] then Except.error "Aucune colonne numerique exploitable"
      else Except.ok (riftlensNumeric rows) := rfl

/-- C8: `_pairwise_numeric_vectors` raises exactly when no column has at
least 2 parsed numeric values; whenever some column qualifies it
returns a non-empty column map, and `build_coherence_graph` on that map
returns the sorted node list, an edge list, and the threshold it was
given. -/
theorem coherence_graph_error_iff (rows : List Row) (t : ℚ) :
    ((∃ e, pairwise_numeric_vectors rows = Except.error e) ↔
      ∀ k ∈ keysOf rows, (riftlensColumn rows k).length < 2) ∧
    ∀ d, pairwise_numeric_vectors rows = Except.ok d →
      d ≠ [] ∧
        (build_coherence_graph d t).nodes = sortStrings (d.map Prod.fst) ∧
        (build_coherence_graph d t).threshold = t := by
  constructor
  · constructor
    · rintro ⟨e, he⟩ k hk
      by_contra hlen
      push_neg at hlen
      have hmem : (k, riftlensColumn rows k) ∈ riftlensNumeric rows := by
        rw [riftlensNumeric, List.mem_filter]
        exact ⟨List.mem_map_of_mem _ hk, by simpa using hlen⟩
      have hne : riftlensNumeric rows ≠ [] := List.ne_nil_of_mem hmem
      rw [pairwise_numeric_vectors_eq, if_neg hne] at he
      exact Except.noConfusion he
    · intro hall
      have hnil : riftlensNumeric rows = [] := by
        rw [riftlensNumeric]
        rw [List.filter_eq_nil_iff]
        rintro kv hkv
        obtain ⟨k, hk, rfl⟩ := List.mem_map.mp hkv
        have := hall k hk
        simp only [decide_eq_true_eq]
        omega
      exact ⟨_, by rw [pairwise_numeric_vectors_eq, if_pos hnil]⟩
  · intro d hd
    rw [pairwise_numeric_vectors_eq] at hd
    by_cases hnil : riftlensNumeric rows = []
    · rw [if_pos hnil] at hd
      exact Except.noConfusion hd
    · rw [if_neg hnil] at hd
      obtain rfl : riftlensNumeric rows = d := Except.ok.inj hd
      exact ⟨hnil, rfl, rfl⟩

/-- Witness for C8: two rows with a single numeric column `"a"` qualify,
and the graph over the resulting map carries its node, edges and
threshold. -/
theorem coherence_graph_error_iff_witness :
    pairwise_numeric_vectors [[("a", Value.vNum 1)], [("a", Value.vNum 2)]]
        = Except.ok [("a", [1, 2])] ∧
      ([("a", [(1 : ℚ), 2])] ≠ ([] : List (String × List ℚ)) ∧
        (build_coherence_graph [("a", [1, 2])] (1 / 2)).nodes
            = sortStrings ([("a", [(1 : ℚ), 2])].map Prod.fst) ∧
        (build_coherence_graph [("a", [1, 2])] (1 / 2)).threshold = 1 / 2) :=
  ⟨by rfl,
    (coherence_graph_error_iff [[("a", Value.vNum 1)], [("a", Value.vNum 2)]] (1 / 2)).2
      [("a", [1, 2])] (by rfl)⟩

/-- A sum of squared deviations is non-negative. -/
lemma sumsq_nonneg (l : List ℚ) (m : ℚ) :
    0 ≤ (l.map (fun a => (a - m) ^ 2)).sum := by
  apply List.sum_nonneg
  intro z hz
  obtain ⟨a, _, rfl⟩ := List.mem_map.mp hz
  positivity

/-- Indexing the aligned prefix through `range (min |x| |y|)` is the same
as zipping the two lists. -/
lemma range_getD_eq_zip (f : ℚ → ℚ → ℚ) :
    ∀ (x y : List ℚ),
      (List.range (min x.length y.length)).map (fun i => f (x.getD i 0) (y.getD i 0))
        = (x.zip y).map (fun p => f p.1 p.2) := by
  intro x
  induction x with
  | nil => intro y; simp
  | cons a xs ih =>
    intro y
    cases y with
    | nil => simp
    | cons b ys =>
      have hmin : min (a :: xs).length (b :: ys).length = min xs.length ys.length + 1 := by
        simp only [List.length_cons]
        omega
      rw [hmin, List.range_succ_eq_map, List.map_cons, List.map_map, List.zip_cons_cons,
        List.map_cons]
      congr 1
      rw [← ih ys]
      simp [Function.comp_def]

/-- C1, counterexample: for the unequal-length columns `x = [0,1,10]`,
`y = [0,1]` the emitted correlation is `(1/2)/√(283/8) < 1`, while the
Pearson correlation of the index-aligned prefixes `[0,1]`, `[0,1]` is 1:
the value `10` past the shorter length changes the result, because the
code's means divide the full sums by `n = min` and its variance terms
range over the full lists. -/
theorem pearson_unequal_lengths_counterexample :
    pearson_corr [0, 1, 10] [0, 1] ≠ pearson_spec [0, 1, 10] [0, 1] := by
  have hcode : pearson_corr [0, 1, 10] [0, 1] = (1 / 2 : ℝ) / Real.sqrt (283 / 8) := by
    simp only [pearson_corr]
    norm_num [(show List.range 2 = [0, 1] by decide)]
  have hspec : pearson_spec [0, 1, 10] [0, 1] = 1 := by
    simp only [pearson_spec]
    norm_num
    rw [← mul_inv, Real.mul_self_sqrt (by norm_num : (0 : ℝ) ≤ 2)]
    norm_num
  have h1 : (1 : ℝ) < Real.sqrt (283 / 8) := by
    rw [show (1 : ℝ) = Real.sqrt 1 from Real.sqrt_one.symm]
    exact Real.sqrt_lt_sqrt (by norm_num) (by norm_num)
  have h0 : 0 < Real.sqrt (283 / 8) := lt_trans one_pos h1
  have hlt : (1 / 2 : ℝ) / Real.sqrt (283 / 8) < 1 := by
    rw [div_lt_one h0]
    linarith
  rw [hcode, hspec]
  exact ne_of_lt hlt

/-- C1, amended: whenever the two columns have equal length — the only
case in which the code's full-list means and variances coincide with
those of the aligned prefix — the emitted correlation equals the Pearson
correlation of the index-aligned sequences, with the spec's conventions
(0 for fewer than 2 paired values or a zero variance).  For unequal
lengths the counterexample shows values past the shorter length do
influence the result. -/
theorem pearson_equal_length_matches_spec (x y : List ℚ) (h : x.length = y.length) :
    pearson_corr x y = pearson_spec x y := by
  have htx : x.take (min x.length y.length) = x :=
    List.take_of_length_le (by omega)
  have hty : y.take (min x.length y.length) = y :=
    List.take_of_length_le (by omega)
  simp only [pearson_corr, pearson_spec, htx, hty]
  by_cases h2 : min x.length y.length < 2
  · rw [if_pos h2, if_pos h2]
  · rw [if_neg h2, if_neg h2]
    set m : ℚ := ((x.length ⊓ y.length : ℕ) : ℚ) with hm
    set vx := (x.map (fun a => (a - x.sum / m) ^ 2)).sum with hvxdef
    set vy := (y.map (fun b => (b - y.sum / m) ^ 2)).sum with hvydef
    have hvx : 0 ≤ vx := sumsq_nonneg x (x.sum / m)
    have hvy : 0 ≤ vy := sumsq_nonneg y (y.sum / m)
    by_cases hz : vx = 0 ∨ vy = 0
    · rw [if_pos (hz.imp le_of_eq le_of_eq), if_pos hz]
    · push_neg at hz
      have hle : ¬ (vx ≤ 0 ∨ vy ≤ 0) := by
        push_neg
        exact ⟨lt_of_le_of_ne hvx (Ne.symm hz.1), lt_of_le_of_ne hvy (Ne.symm hz.2)⟩
      rw [if_neg hle, if_neg (by push_neg; exact hz)]
      have hcov := range_getD_eq_zip (fun a b => (a - x.sum / m) * (b - y.sum / m)) x y
      rw [hcov, Real.sqrt_mul (by exact_mod_cast hvx)]

/-- Witness for C1 (amended) at the equal-length pair `[0,1]`, `[0,1]`. -/
theorem pearson_equal_length_matches_spec_witness :
    ([0, 1] : List ℚ).length = ([0, 1] : List ℚ).length ∧
      pearson_corr [0, 1] [0, 1] = pearson_spec [0, 1] [0, 1] :=
  ⟨rfl, pearson_equal_length_matches_spec [0, 1] [0, 1] rfl⟩

end FluxGuard
